import Mathlib

/-!
Verification of `relay_control.py` (OpenWeedLocator): the per-channel
job-queuing and timing-correction engine.

Time values (timestamps, delays, durations) are modelled as rationals.
`time.sleep t` raises `ValueError` exactly when `t < 0`; the embedding of
each `try: time.sleep(..) except ValueError:` site records which branch ran.
Actuator calls (`relay_on` / `relay_off`) and log lines are recorded as
event traces so that the temporal claims become statements about lists.
-/

namespace RelayControl

/-- One spray job as built in `Controller.receive`:
`inputQMessage = [nozzle, timeStamp, delay, duration, location]`. -/
structure SprayJob where
  nozzle : Nat
  timeStamp : ℚ
  delay : ℚ
  duration : ℚ
  location : Int
  deriving DecidableEq, Repr

/-- Actuator calls made through `RelayControl.relay_on` / `relay_off`. -/
inductive ActEvent where
  | on (nozzle : Nat)
  | off (nozzle : Nat)
  deriving DecidableEq, Repr

/-- Lines appended through `self.logger.log_line`.
`audit` carries the five values of the line written by `receive`, in the
order they are substituted into the format string
(nozzle, timeStamp, delay, duration, location).
`infoOnDur` is the `[INFO] onDur .. for nozzle .. received.` line;
`errorNegOnDur` is the `[ERROR] negative onDur ..` line of the
`except ValueError` branch around `time.sleep(onDur)`. -/
inductive LogLine where
  | audit (nozzle : Nat) (timeStamp : ℚ) (delay : ℚ) (duration : ℚ) (location : Int)
  | infoOnDur (onDur : ℚ) (nozzle : Nat)
  | errorNegOnDur (onDur : ℚ) (nozzle : Nat)
  deriving DecidableEq, Repr

/-- `time.sleep t` raises `ValueError` iff `t` is negative. -/
def sleepRaises (t : ℚ) : Bool := t < 0

/-- `onDur = 0 if (sprayJob[3] - timeDiff <= 0) else (sprayJob[3] - timeDiff)`
with `timeDiff = time.time() - sprayJob[1]` (line 155 of the source). -/
def effectiveOnDur (now : ℚ) (job : SprayJob) : ℚ :=
  let timeDiff := now - job.timeStamp
  if job.duration - timeDiff ≤ 0 then 0 else job.duration - timeDiff

/-- `delay = 0 if onDur == 0 else (sprayJob[2] - timeDiff)` (line 159):
the raw pre-activation delay, not clamped at computation time. -/
def rawDelay (now : ℚ) (job : SprayJob) : ℚ :=
  if effectiveOnDur now job = 0 then 0 else job.delay - (now - job.timeStamp)

/-- Result of processing one dequeued job in `Controller.consumer`:
the sleep intervals actually performed (after the `except ValueError:
time.sleep(0)` substitutions), the actuator calls, the log lines, and
the updated `nozzleOn` flag. -/
structure JobResult where
  sleeps : List ℚ
  events : List ActEvent
  logs : List LogLine
  nozzleOn : Bool
  deriving DecidableEq, Repr

/-- Body of the inner `while nozzleQueue:` loop of `Controller.consumer`
(lines 150–176) for one dequeued `sprayJob`, processed at time `now` with
the current `nozzleOn` flag.

If `not nozzleOn`: compute the raw delay, `try: time.sleep(delay)` —
a negative value raises `ValueError` and is replaced by `time.sleep(0)`,
with no log line — then `relay_on(nozzle)` and `nozzleOn = True`.
Then `try: time.sleep(onDur)` and log the `[INFO]` line; if that sleep
raises (negative `onDur`), `time.sleep(0)` and log the `[ERROR]` line. -/
def processJob (nozzle : Nat) (now : ℚ) (nozzleOn : Bool) (job : SprayJob) :
    JobResult :=
  let onDur := effectiveOnDur now job
  let pre :
      List ℚ × List ActEvent × Bool :=
    if nozzleOn then ([], [], true)
    else
      let delay := rawDelay now job
      let slept := if sleepRaises delay then (0 : ℚ) else delay
      ([slept], [ActEvent.on nozzle], true)
  let dur :
      List ℚ × List LogLine :=
    if sleepRaises onDur then
      ([0], [LogLine.errorNegOnDur onDur nozzle])
    else
      ([onDur], [LogLine.infoOnDur onDur nozzle])
  { sleeps := pre.1 ++ dur.1
    events := pre.2.1
    logs := dur.2
    nozzleOn := pre.2.2 }

/-- Running trace of one consumer worker. -/
structure RunState where
  nozzleOn : Bool
  sleeps : List ℚ
  events : List ActEvent
  logs : List LogLine
  deriving DecidableEq, Repr

/-- The state of a worker thread that has just started (line 145:
`nozzleOn = False`), with empty traces. -/
def initRunState : RunState :=
  { nozzleOn := false, sleeps := [], events := [], logs := [] }

/-- Append one job's result to the running trace. -/
def stepJob (nozzle : Nat) (s : RunState) (timedJob : ℚ × SprayJob) : RunState :=
  let r := processJob nozzle timedJob.1 s.nozzleOn timedJob.2
  { nozzleOn := r.nozzleOn
    sleeps := s.sleeps ++ r.sleeps
    events := s.events ++ r.events
    logs := s.logs ++ r.logs }

/-- The inner `while nozzleQueue:` drain loop: process, in order, the jobs
dequeued during this drain, each at its own processing time. -/
def processJobs (nozzle : Nat) (s : RunState) (jobs : List (ℚ × SprayJob)) :
    RunState :=
  jobs.foldl (stepJob nozzle) s

/-- One iteration of the outer `while self.running:` loop (lines 147–182):
drain the queue, then — the queue now being empty — `relay_off(nozzle)`
and `nozzleOn = False`, before parking in `inputCondition.wait()`. -/
def consumerIteration (nozzle : Nat) (s : RunState) (jobs : List (ℚ × SprayJob)) :
    RunState :=
  let s1 := processJobs nozzle s jobs
  { s1 with events := s1.events ++ [ActEvent.off nozzle], nozzleOn := false }

/-- `collections.deque(maxlen=5)`: appending to a full deque silently
discards the element at the opposite (oldest) end. -/
def dequeAppend (q : List SprayJob) (j : SprayJob) : List SprayJob :=
  if q.length < 5 then q ++ [j] else q.tail ++ [j]

/-- `popleft` of a deque: the front element and the rest, `none` when empty. -/
def popleft (q : List SprayJob) : Option (SprayJob × List SprayJob) :=
  match q with
  | [] => none
  | j :: rest => some (j, rest)

/-- The order in which the consumer dequeues the jobs of a queue by
repeated `popleft` (line 150). -/
def drainOrder (q : List SprayJob) : List SprayJob :=
  match q with
  | [] => []
  | j :: rest => j :: drainOrder rest

/-- State of one `Controller` visible to `receive`: the per-nozzle queues
(`nozzleQueueDict`, keyed `0 .. len-1` as built in `__init__`) and the
shared log. The physical actuator mapping (`solenoidDict` inside the
embedded `RelayControl`) is carried alongside for the management API. -/
structure SystemState where
  solenoidDict : List (Nat × Nat)
  queues : List (List SprayJob)
  log : List LogLine
  deriving DecidableEq, Repr

/-- `Controller.receive(nozzle, timeStamp, location, delay, duration)`
(lines 112–132). `self.nozzleQueueDict[nozzle]` raises `KeyError` when
`nozzle` is not a configured queue key; modelled as `none`, in which case
nothing has been modified. Otherwise: append the job message to the
nozzle's deque (overflow drops the oldest), notify, and append one audit
line with all five fields. -/
def receive (st : SystemState) (nozzle : Nat) (timeStamp : ℚ)
    (location : Int) (delay : ℚ) (duration : ℚ) : Option SystemState :=
  if h : nozzle < st.queues.length then
    let job : SprayJob :=
      { nozzle := nozzle, timeStamp := timeStamp, delay := delay
        duration := duration, location := location }
    some { st with
      queues := st.queues.set nozzle (dequeAppend (st.queues.get ⟨nozzle, h⟩) job)
      log := st.log ++ [LogLine.audit nozzle timeStamp delay duration location] }
  else none

/-- `RelayControl.remove(solenoidNumber)` (lines 74–75):
`self.solenoidDict.pop(solenoidNumber, None)` removes the entry with that
key, if present, and touches nothing else. -/
def removeChannel (st : SystemState) (solenoidNumber : Nat) : SystemState :=
  { st with
    solenoidDict := st.solenoidDict.filter (fun p => p.1 ≠ solenoidNumber) }

/-- State of the relay board used by the management API: the channel→pin
mapping and, per relay number, whether the relay is energized. -/
structure BoardState where
  solenoidDict : List (Nat × Nat)
  energized : List Nat
  deriving DecidableEq, Repr

/-- `relay_off` on one nozzle: de-energizes that relay (and prints). -/
def relay_off (b : BoardState) (nozzle : Nat) : BoardState × List ActEvent :=
  ({ b with energized := b.energized.filter (fun m => m ≠ nozzle) },
   [ActEvent.off nozzle])

/-- `RelayControl.all_off` (lines 70–72): `relay_off` on every key of
`solenoidDict`, in mapping order. -/
def all_off (b : BoardState) : BoardState × List ActEvent :=
  b.solenoidDict.foldl
    (fun acc p =>
      let r := relay_off acc.1 p.1
      (r.1, acc.2 ++ r.2))
    (b, [])

/-- `RelayControl.clear` (lines 77–78): `self.solenoidDict = {}`. -/
def clear (b : BoardState) : BoardState :=
  { b with solenoidDict := [] }

/-- `RelayControl.stop` (lines 80–82): `self.clear()` then `self.all_off()`. -/
def stop (b : BoardState) : BoardState × List ActEvent :=
  all_off (clear b)

/-- True when a list of log lines contains no `[ERROR] negative onDur` line. -/
def noErrorLine (ls : List LogLine) : Bool :=
  ls.all fun l =>
    match l with
    | LogLine.errorNegOnDur _ _ => false
    | _ => true

/-- A concrete stale job: detected at time 0 with duration 1. -/
def sampleJob : SprayJob :=
  { nozzle := 0, timeStamp := 0, delay := 0, duration := 1, location := 0 }

/-- A controller with a single configured nozzle (key 0, pin 7). -/
def sampleState : SystemState :=
  { solenoidDict := [(0, 7)], queues := [[]], log := [] }

/-- A controller with two configured nozzles. -/
def sampleState2 : SystemState :=
  { solenoidDict := [(0, 7), (1, 8)], queues := [[], []], log := [] }

theorem effectiveOnDur_eq_max (now : ℚ) (job : SprayJob) :
    effectiveOnDur now job = max 0 (job.duration - (now - job.timeStamp)) := by
  show (if job.duration - (now - job.timeStamp) ≤ 0 then (0 : ℚ)
    else job.duration - (now - job.timeStamp)) = _
  rcases le_or_lt (job.duration - (now - job.timeStamp)) 0 with h | h
  · rw [if_pos h, max_eq_left h]
  · rw [if_neg (not_le.mpr h), max_eq_right h.le]

theorem effectiveOnDur_nonneg (now : ℚ) (job : SprayJob) :
    0 ≤ effectiveOnDur now job := by
  rw [effectiveOnDur_eq_max]; exact le_max_left _ _

theorem sleepRaises_effOnDur (now : ℚ) (job : SprayJob) :
    sleepRaises (effectiveOnDur now job) = false := by
  simp only [sleepRaises, decide_eq_false_iff_not, not_lt]
  exact effectiveOnDur_nonneg now job

theorem slept_eq_max (t : ℚ) : (if sleepRaises t then (0 : ℚ) else t) = max 0 t := by
  simp only [sleepRaises]
  rcases lt_or_le t 0 with h | h
  · simp [h, max_eq_left h.le]
  · simp [not_lt.mpr h, max_eq_right h]

theorem processJob_logs (n : Nat) (now : ℚ) (b : Bool) (job : SprayJob) :
    (processJob n now b job).logs = [LogLine.infoOnDur (effectiveOnDur now job) n] := by
  cases b <;> simp [processJob, sleepRaises_effOnDur]

theorem processJob_sleeps_getLast (n : Nat) (now : ℚ) (b : Bool) (job : SprayJob) :
    (processJob n now b job).sleeps.getLast? = some (effectiveOnDur now job) := by
  cases b <;> simp [processJob, sleepRaises_effOnDur]

theorem processJob_events_on (n : Nat) (now : ℚ) (job : SprayJob) :
    (processJob n now true job).events = [] := by
  simp [processJob]

theorem processJob_events_off (n : Nat) (now : ℚ) (job : SprayJob) :
    (processJob n now false job).events = [ActEvent.on n] := by
  simp [processJob]

theorem processJob_nozzleOn (n : Nat) (now : ℚ) (b : Bool) (job : SprayJob) :
    (processJob n now b job).nozzleOn = true := by
  cases b <;> simp [processJob]

/-- Claim C1 counterexample: for the dequeued job `sampleJob` processed at
time 5, the raw computed on-duration `1 - (5 - 0) = -4` is negative, yet the
worker appends the normal `[INFO]` log line reporting `onDur = 0` and no
error-tagged line at all: the clamp at line 155 happens before
`time.sleep(onDur)`, so the `except ValueError` branch that would log the
`[ERROR] negative onDur` line is unreachable. -/
theorem claim_C1_counterexample :
    sampleJob.duration - ((5 : ℚ) - sampleJob.timeStamp) < 0 ∧
    (processJob 0 5 false sampleJob).logs = [LogLine.infoOnDur 0 0] ∧
    noErrorLine (processJob 0 5 false sampleJob).logs = true := by
  have heff : effectiveOnDur 5 sampleJob = 0 := by
    rw [effectiveOnDur_eq_max]; norm_num [sampleJob]
  refine ⟨by norm_num [sampleJob], ?_, ?_⟩
  · rw [processJob_logs, heff]
  · rw [processJob_logs]; rfl

/-- Claim C1 (amended): for every dequeued job the worker waits
`max(0, duration - elapsed)` — zero when the raw computed on-duration is
negative — and appends the one normal log line reporting that clamped
on-duration; an error-tagged line is never appended, because the value is
clamped before the sleep that would raise. -/
theorem claim_C1_amended (n : Nat) (now : ℚ) (b : Bool) (job : SprayJob) :
    (processJob n now b job).logs
      = [LogLine.infoOnDur (max 0 (job.duration - (now - job.timeStamp))) n] ∧
    noErrorLine (processJob n now b job).logs = true ∧
    (processJob n now b job).sleeps.getLast?
      = some (max 0 (job.duration - (now - job.timeStamp))) := by
  refine ⟨?_, ?_, ?_⟩
  · rw [processJob_logs, effectiveOnDur_eq_max]
  · rw [processJob_logs]; rfl
  · rw [processJob_sleeps_getLast, effectiveOnDur_eq_max]

/-- Claim C3: the effective on-duration equals
`max(0, job.duration - (now - job.detectionTime))`, is never negative, is
exactly the duration the worker sleeps, and when the actuator is not yet
active the job still energizes it (`on()` is called) rather than being
skipped; in particular a job with `detectionTime = now - 5` and
`duration = 1` yields effective on-duration exactly `0`. -/
theorem claim_C3 (n : Nat) (now : ℚ) (job : SprayJob) :
    effectiveOnDur now job = max 0 (job.duration - (now - job.timeStamp)) ∧
    0 ≤ effectiveOnDur now job ∧
    (processJob n now false job).sleeps.getLast? = some (effectiveOnDur now job) ∧
    (processJob n now false job).events = [ActEvent.on n] ∧
    (∀ (now' delay : ℚ) (loc : Int) (m : Nat),
      effectiveOnDur now'
        { nozzle := m, timeStamp := now' - 5, delay := delay,
          duration := 1, location := loc } = 0) := by
  refine ⟨effectiveOnDur_eq_max now job, effectiveOnDur_nonneg now job,
    processJob_sleeps_getLast n now false job, processJob_events_off n now job,
    ?_⟩
  intro now' delay loc m
  rw [effectiveOnDur_eq_max]
  simp only [SprayJob.duration, SprayJob.timeStamp]
  norm_num

/-- Claim C4: when the actuator is not yet active, the pre-activation wait
actually performed is `0` when the effective on-duration is `0`, and
otherwise `max(0, job.delay - elapsed)` — a negative raw delay raises in
`time.sleep` and is replaced by a zero sleep — and this substitution is
silent: the job's only log line is the normal on-duration report. -/
theorem claim_C4 (n : Nat) (now : ℚ) (job : SprayJob) :
    (processJob n now false job).sleeps.head? =
      some (if effectiveOnDur now job = 0 then 0
            else max 0 (job.delay - (now - job.timeStamp))) ∧
    (processJob n now false job).logs
      = [LogLine.infoOnDur (effectiveOnDur now job) n] := by
  refine ⟨?_, processJob_logs n now false job⟩
  have hhead : (processJob n now false job).sleeps.head?
      = some (if sleepRaises (rawDelay now job) then (0 : ℚ) else rawDelay now job) := by
    simp [processJob, sleepRaises_effOnDur]
  rw [hhead, slept_eq_max]
  by_cases h : effectiveOnDur now job = 0
  · simp [h, rawDelay]
  · simp [h, rawDelay]

theorem processJobs_of_on (n : Nat) :
    ∀ (jobs : List (ℚ × SprayJob)) (s : RunState), s.nozzleOn = true →
      (processJobs n s jobs).events = s.events ∧
      (processJobs n s jobs).nozzleOn = true := by
  intro jobs
  induction jobs with
  | nil => intro s h; exact ⟨rfl, h⟩
  | cons j rest ih =>
    intro s h
    have hstep : (stepJob n s j).events = s.events ∧ (stepJob n s j).nozzleOn = true := by
      constructor
      · simp [stepJob, h, processJob_events_on]
      · simp [stepJob, processJob_nozzleOn]
    have := ih (stepJob n s j) hstep.2
    unfold processJobs at this ⊢
    rw [List.foldl_cons]
    exact ⟨this.1.trans hstep.1, this.2⟩

theorem processJobs_init_cons (n : Nat) (j : ℚ × SprayJob)
    (rest : List (ℚ × SprayJob)) :
    (processJobs n initRunState (j :: rest)).events = [ActEvent.on n] ∧
    (processJobs n initRunState (j :: rest)).nozzleOn = true := by
  have hstep : (stepJob n initRunState j).events = [ActEvent.on n] ∧
      (stepJob n initRunState j).nozzleOn = true := by
    constructor
    · simp [stepJob, initRunState, processJob_events_off]
    · simp [stepJob, processJob_nozzleOn]
  have := processJobs_of_on n rest (stepJob n initRunState j) hstep.2
  unfold processJobs at this ⊢
  rw [List.foldl_cons]
  exact ⟨this.1.trans hstep.1, this.2⟩

/-- Claim C2 counterexample: a worker whose queue has been empty since its
start (no `receive` ever issued, so its first outer-loop iteration drains
an empty job list) nevertheless performs an actuator call before parking:
lines 178–180 run `relay_off(nozzle)` whenever the queue is empty, including
on the very first pass before any job has been received. -/
theorem claim_C2_counterexample :
    (consumerIteration 0 initRunState []).events = [ActEvent.off 0] ∧
    (consumerIteration 0 initRunState []).events ≠ [] := by
  have h1 : (consumerIteration 0 initRunState []).events = [ActEvent.off 0] := rfl
  exact ⟨h1, by rw [h1]; simp⟩

/-- Claim C2 (amended): a channel worker whose queue has been empty since
its start performs no `on()` call before `receive` is first invoked, but it
does call `off()` once on its first pass; and every outer-loop iteration
(activation run) emits exactly one `off()` after its queue drains — the full
event trace of a run started with the actuator off is one `on()` (absent
when no job was processed) followed by exactly one `off()`. -/
theorem claim_C2_amended (n : Nat) (jobs : List (ℚ × SprayJob)) :
    (consumerIteration n initRunState jobs).events
      = (if jobs = [] then [] else [ActEvent.on n]) ++ [ActEvent.off n] := by
  cases jobs with
  | nil => rfl
  | cons j rest =>
    have h := processJobs_init_cons n j rest
    simp [consumerIteration, h.1]

/-- Claim C6: within one continuous activation run that starts with the
actuator off and processes at least one queued job, `on()` is called exactly
once, no matter how many jobs the run drains: the run's whole actuator
trace is `[on, off]`. -/
theorem claim_C6 (n : Nat) (jobs : List (ℚ × SprayJob)) (h : jobs ≠ []) :
    (consumerIteration n initRunState jobs).events
      = [ActEvent.on n, ActEvent.off n] ∧
    ((consumerIteration n initRunState jobs).events.count (ActEvent.on n)) = 1 := by
  cases jobs with
  | nil => exact absurd rfl h
  | cons j rest =>
    have hc := processJobs_init_cons n j rest
    have hev : (consumerIteration n initRunState (j :: rest)).events
        = [ActEvent.on n, ActEvent.off n] := by
      simp [consumerIteration, hc.1]
    refine ⟨hev, ?_⟩
    rw [hev]
    simp [List.count_cons, List.count_nil]

/-- Witness for C6 at a concrete one-job run. -/
theorem claim_C6_witness :
    (consumerIteration 0 initRunState [((5 : ℚ), sampleJob)]).events
      = [ActEvent.on 0, ActEvent.off 0] ∧
    ((consumerIteration 0 initRunState
        [((5 : ℚ), sampleJob)]).events.count (ActEvent.on 0)) = 1 :=
  claim_C6 0 [((5 : ℚ), sampleJob)] (by simp)

theorem dequeAppend_length_le (q : List SprayJob) (j : SprayJob)
    (h : q.length ≤ 5) : (dequeAppend q j).length ≤ 5 := by
  unfold dequeAppend
  rcases lt_or_le q.length 5 with h5 | h5
  · rw [if_pos h5]
    simp only [List.length_append, List.length_singleton]
    omega
  · rw [if_neg (not_lt.mpr h5)]
    simp only [List.length_append, List.length_singleton, List.length_tail]
    omega

theorem foldl_dequeAppend_length (js : List SprayJob) :
    ∀ q : List SprayJob, q.length ≤ 5 →
      (js.foldl dequeAppend q).length ≤ 5 := by
  induction js with
  | nil => intro q h; exact h
  | cons j rest ih =>
    intro q h
    rw [List.foldl_cons]
    exact ih (dequeAppend q j) (dequeAppend_length_le q j h)

theorem foldl_dequeAppend_eq_drop (js : List SprayJob) :
    js.foldl dequeAppend [] = js.drop (js.length - 5) := by
  induction js using List.reverseRecOn with
  | nil => rfl
  | append_singleton js j ih =>
    rw [List.foldl_append, List.foldl_cons, List.foldl_nil, ih]
    rcases le_or_lt js.length 4 with h | h
    · have h0 : js.length - 5 = 0 := by omega
      have h1 : (js ++ [j]).length - 5 = 0 := by
        simp only [List.length_append, List.length_singleton]; omega
      rw [h0, h1, List.drop_zero, List.drop_zero]
      unfold dequeAppend
      rw [if_pos (by omega : js.length < 5)]
    · have hlen : (js.drop (js.length - 5)).length = 5 := by
        rw [List.length_drop]; omega
      unfold dequeAppend
      rw [if_neg (by omega : ¬ (js.drop (js.length - 5)).length < 5)]
      rw [List.tail_drop]
      have h45 : js.length - 5 + 1 = js.length - 4 := by omega
      have hlen2 : (js ++ [j]).length - 5 = js.length - 4 := by
        simp only [List.length_append, List.length_singleton]; omega
      rw [h45, hlen2, List.drop_append_of_le_length (by omega : js.length - 4 ≤ js.length)]

/-- Claim C5: each channel queue holds at most 5 pending jobs, and a full
queue silently drops its oldest element on append: pushing 6 jobs into an
empty queue leaves exactly the last 5, in their original relative order,
with the first evicted. -/
theorem claim_C5 (js : List SprayJob)
    (j1 j2 j3 j4 j5 j6 : SprayJob) :
    (js.foldl dequeAppend []).length ≤ 5 ∧
    [j1, j2, j3, j4, j5, j6].foldl dequeAppend [] = [j2, j3, j4, j5, j6] := by
  constructor
  · exact foldl_dequeAppend_length js [] (by simp)
  · rfl

/-- Claim C7: the jobs surviving the drop-oldest overflow policy — the last
`min 5 n` of the `n` jobs enqueued — are dequeued by repeated `popleft` in
exactly their enqueue order: the drain order is the enqueue sequence with
its over-capacity prefix dropped, a sublist of the enqueue sequence. -/
theorem claim_C7 (js : List SprayJob) :
    drainOrder (js.foldl dequeAppend []) = js.drop (js.length - 5) ∧
    (drainOrder (js.foldl dequeAppend [])).Sublist js := by
  have hdrain : ∀ q : List SprayJob, drainOrder q = q := by
    intro q
    induction q with
    | nil => rfl
    | cons a t ih => rw [drainOrder, ih]
  rw [hdrain, foldl_dequeAppend_eq_drop]
  exact ⟨rfl, List.drop_sublist _ _⟩

/-- Claim C8: `receive` fails with a lookup error exactly when the channel
does not name a configured queue — the `KeyError` is raised by the very
first dictionary access, before any queue mutation or logging, which the
embedding reflects by returning `none` with the input state untouched — and
on a configured channel it appends exactly the one new job to that
channel's deque and exactly one audit line carrying all five fields. -/
theorem claim_C8 (st : SystemState) (n : Nat) (ts : ℚ) (loc : Int) (d dur : ℚ) :
    (receive st n ts loc d dur = none ↔ st.queues.length ≤ n) ∧
    (∀ h : n < st.queues.length,
      receive st n ts loc d dur = some
        { st with
          queues := st.queues.set n
            (dequeAppend (st.queues.get ⟨n, h⟩)
              { nozzle := n, timeStamp := ts, delay := d,
                duration := dur, location := loc })
          log := st.log ++ [LogLine.audit n ts d dur loc] }) := by
  constructor
  · by_cases h : n < st.queues.length
    · rw [receive, dif_pos h]
      simp only [reduceCtorEq, false_iff]
      omega
    · rw [receive, dif_neg h]
      simp only [true_iff]
      omega
  · intro h
    rw [receive, dif_pos h]

/-- Witness for C8 on a one-nozzle controller with an empty queue. -/
theorem claim_C8_witness :
    receive sampleState 0 1 2 3 4 = some
      { solenoidDict := [(0, 7)],
        queues := [[{ nozzle := 0, timeStamp := 1, delay := 3,
                      duration := 4, location := 2 }]],
        log := [LogLine.audit 0 1 3 4 2] } := by
  have h := (claim_C8 sampleState 0 1 2 3 4).2 (by simp [sampleState])
  simpa [sampleState, dequeAppend] using h

/-- Claim C9 counterexample: `RelayControl.remove` pops the channel from
`solenoidDict` only; the per-nozzle queues live in `nozzleQueueDict`, which
`receive` consults. After removing channel 0, a `receive` for channel 0
still succeeds and still enqueues a job: the claim that a subsequent
`receive` "no longer enqueues a job for actuation" is false. -/
theorem claim_C9_counterexample :
    sampleState.queues = [[]] ∧
    (receive (removeChannel sampleState 0) 0 1 0 0 1).map SystemState.queues
      = some [[{ nozzle := 0, timeStamp := 1, delay := 0,
                 duration := 1, location := 0 }]] := by
  exact ⟨rfl, rfl⟩

/-- Claim C9 (amended): `remove(channel)` removes exactly that channel's
entry from the actuator mapping and leaves every other channel's entry, all
job queues, and the log unchanged; it does not affect dispatch — a
subsequent `receive`, even for the removed channel, behaves exactly as
before on the queues and the log. -/
theorem claim_C9_amended (st : SystemState) (n : Nat) (ts : ℚ)
    (loc : Int) (d dur : ℚ) :
    (∀ pin : Nat, (n, pin) ∉ (removeChannel st n).solenoidDict) ∧
    (∀ m pin : Nat, m ≠ n →
      ((m, pin) ∈ (removeChannel st n).solenoidDict ↔ (m, pin) ∈ st.solenoidDict)) ∧
    (removeChannel st n).queues = st.queues ∧
    (removeChannel st n).log = st.log ∧
    receive (removeChannel st n) n ts loc d dur
      = (receive st n ts loc d dur).map (fun s => removeChannel s n) := by
  refine ⟨?_, ?_, rfl, rfl, ?_⟩
  · intro pin hmem
    have := (List.mem_filter.mp hmem).2
    simp at this
  · intro m pin hmn
    simp [removeChannel, List.mem_filter, hmn]
  · by_cases h : n < st.queues.length
    · rw [receive, receive]
      rw [dif_pos (show n < (removeChannel st n).queues.length from h), dif_pos h]
      rfl
    · rw [receive, receive]
      rw [dif_neg (show ¬ n < (removeChannel st n).queues.length from h), dif_neg h]
      rfl

/-- Witness for C9 (amended) on a two-nozzle controller, removing channel 0
and checking channel 1's mapping, the queues, and dispatch to channel 0. -/
theorem claim_C9_amended_witness :
    ((1, 8) ∈ (removeChannel sampleState2 0).solenoidDict ↔
      (1, 8) ∈ sampleState2.solenoidDict) ∧
    (removeChannel sampleState2 0).queues = sampleState2.queues ∧
    receive (removeChannel sampleState2 0) 0 1 0 0 1
      = (receive sampleState2 0 1 0 0 1).map (fun s => removeChannel s 0) :=
  ⟨(claim_C9_amended sampleState2 0 1 0 0 1).2.1 1 8 (by decide),
   (claim_C9_amended sampleState2 0 1 0 0 1).2.2.1,
   (claim_C9_amended sampleState2 0 1 0 0 1).2.2.2.2⟩

/-- Claim C10: `stop()` calls `clear()` first, so `all_off()` then iterates
an empty mapping: for every mapping and actuator state, `stop` performs no
`off()` call, is observably equivalent to `clear` alone, and leaves every
currently energized relay energized. -/
theorem claim_C10 (b : BoardState) :
    stop b = (clear b, []) ∧ (stop b).1.energized = b.energized :=
  ⟨rfl, rfl⟩

end RelayControl
